import Mathlib

/-!
Verification of the Redis e-commerce data manager (redis_core.py).

The development shallowly embeds the data-access layer of the repository:
the Redis store becomes an explicit state record of association lists, keyed
by a structured key type mirroring the string key scheme
(`product:{id}`, `product:all_ids`, `category:{c}:products`, `product:prices`,
`product:{id}:sales`, `cache:product_details:{id}`, `user:{id}`,
`user:all_ids`, `user:{id}:orders`, `order:{id}`, `order:all_ids`,
`order:{id}:items`, `order_item:{id}`).  Each CRUD / query / analytics
function of redis_core.py is translated into a pure Lean function over that
state.  Python pipelines queue commands and apply them on `execute`; every
translated function performs its reads before its queued writes exactly as
the source does, so pipelines are rendered as sequential state updates, and
an exception raised while queueing (e.g. a failed `float(...)` parse)
returns the original, unmodified state.  Numeric values parsed by Python
`float` are modelled as exact rationals (IEEE rounding is outside scope);
`int`/`float` literal parsing is modelled on finite decimal literals
(signs, underscore digit separators, fraction, decimal exponent); the
non-finite forms inf/nan are not modelled.
-/

/-! ## Association lists (the embedding of Python dicts and of the keyed
Redis namespaces).  `aset` replaces the first binding in place or appends a
new binding at the end, exactly like assignment into an (insertion-ordered)
Python dict. -/

def aget {κ β : Type} [DecidableEq κ] : List (κ × β) → κ → Option β
  | [], _ => none
  | (k', v') :: t, k => if k' = k then some v' else aget t k

def agetD {κ β : Type} [DecidableEq κ] (m : List (κ × β)) (k : κ) (d : β) : β :=
  (aget m k).getD d

def aset {κ β : Type} [DecidableEq κ] : List (κ × β) → κ → β → List (κ × β)
  | [], k, v => [(k, v)]
  | (k', v') :: t, k, v => if k' = k then (k, v) :: t else (k', v') :: aset t k v

def adel {κ β : Type} [DecidableEq κ] : List (κ × β) → κ → List (κ × β)
  | [], _ => []
  | (k', v') :: t, k => if k' = k then adel t k else (k', v') :: adel t k

variable {κ β : Type} [DecidableEq κ]

@[simp] theorem aget_nil (k : κ) : aget ([] : List (κ × β)) k = none := rfl

theorem aget_cons (k' : κ) (v' : β) (t : List (κ × β)) (k : κ) :
    aget ((k', v') :: t) k = if k' = k then some v' else aget t k := rfl

@[simp] theorem aget_aset_self (m : List (κ × β)) (k : κ) (v : β) :
    aget (aset m k v) k = some v := by
  induction m with
  | nil => simp [aset, aget]
  | cons p t ih =>
    obtain ⟨k', v'⟩ := p
    by_cases h : k' = k <;> simp [aset, aget, h, ih]

@[simp] theorem aget_aset_ne (m : List (κ × β)) (k j : κ) (v : β) (h : j ≠ k) :
    aget (aset m k v) j = aget m j := by
  have hkj : ¬ k = j := fun hh => h hh.symm
  induction m with
  | nil => simp [aset, aget, hkj]
  | cons p t ih =>
    obtain ⟨k', v'⟩ := p
    by_cases hk : k' = k
    · subst hk
      simp [aset, aget, hkj]
    · by_cases hj : k' = j <;> simp [aset, aget, hk, hj, h, hkj, ih]

@[simp] theorem aget_adel_self (m : List (κ × β)) (k : κ) :
    aget (adel m k) k = none := by
  induction m with
  | nil => simp [adel]
  | cons p t ih =>
    obtain ⟨k', v'⟩ := p
    by_cases h : k' = k <;> simp [adel, aget, h, ih]

@[simp] theorem aget_adel_ne (m : List (κ × β)) (k j : κ) (h : j ≠ k) :
    aget (adel m k) j = aget m j := by
  have hkj : ¬ k = j := fun hh => h hh.symm
  induction m with
  | nil => simp [adel]
  | cons p t ih =>
    obtain ⟨k', v'⟩ := p
    by_cases hk : k' = k
    · subst hk
      simp [adel, aget, hkj, ih]
    · by_cases hj : k' = j <;> simp [adel, aget, hk, hj, h, hkj, ih]

theorem keys_aset (m : List (κ × β)) (k : κ) (v : β) :
    (aset m k v).map Prod.fst =
      if (aget m k).isSome then m.map Prod.fst else m.map Prod.fst ++ [k] := by
  induction m with
  | nil => simp [aset]
  | cons p t ih =>
    obtain ⟨k', v'⟩ := p
    by_cases h : k' = k
    · subst h; simp [aset, aget]
    · simp only [aset, aget, if_neg h]
      by_cases hs : (aget t k).isSome <;> simp [hs, ih]

theorem aget_eq_none_iff (m : List (κ × β)) (k : κ) :
    aget m k = none ↔ k ∉ m.map Prod.fst := by
  induction m with
  | nil => simp
  | cons p t ih =>
    obtain ⟨k', v'⟩ := p
    by_cases h : k' = k
    · subst h; simp [aget]
    · have h2 : ¬ k = k' := fun hh => h hh.symm
      simp [aget, h, h2, ih]

theorem aget_eq_some_iff_mem (m : List (κ × β)) (hm : (m.map Prod.fst).Nodup)
    (k : κ) (v : β) : aget m k = some v ↔ (k, v) ∈ m := by
  induction m with
  | nil => simp
  | cons p t ih =>
    obtain ⟨k', v'⟩ := p
    simp only [List.map_cons, List.nodup_cons] at hm
    by_cases h : k' = k
    · subst h
      have : (k', v) ∈ t → False := by
        intro hmem
        exact hm.1 (List.mem_map.mpr ⟨(k', v), hmem, rfl⟩)
      simp only [aget, if_pos rfl, List.mem_cons]
      constructor
      · rintro hv
        exact Or.inl (by cases hv; rfl)
      · rintro (hv | hv)
        · cases hv; rfl
        · exact absurd hv this
    · simp only [aget, if_neg h, List.mem_cons]
      rw [ih hm.2]
      constructor
      · exact Or.inr
      · rintro (hv | hv)
        · cases hv; exact absurd rfl h
        · exact hv

/-! ## Parsers: models of Python `float(...)`, `int(...)`,
`datetime.fromisoformat(...)` followed by `strftime("%Y-%m")`,
`str.lower()` and the `in` substring test. -/

/-- Leading and trailing whitespace removal, as Python number parsing does. -/
def trimWs (l : List Char) : List Char :=
  ((l.dropWhile Char.isWhitespace).reverse.dropWhile Char.isWhitespace).reverse

/-- Splits off the maximal leading run of digits and underscores. -/
def takeDigitsU : List Char → List Char × List Char
  | [] => ([], [])
  | c :: cs =>
    if c.isDigit || c == '_' then
      let p := takeDigitsU cs
      (c :: p.1, p.2)
    else ([], c :: cs)

/-- Validity of the tail of a digit group after a digit: underscores must be
single and surrounded by digits (Python 3 numeric-literal rule). -/
def uTail : List Char → Bool
  | [] => true
  | c :: cs =>
    if c.isDigit then uTail cs
    else
      c == '_' &&
        (match cs with
         | c2 :: cs2 => c2.isDigit && uTail cs2
         | [] => false)

/-- A nonempty digit group with optional single underscores between digits. -/
def uDigitsOk : List Char → Bool
  | [] => false
  | c :: cs => c.isDigit && uTail cs

/-- Numeric value of a digit group, ignoring underscores. -/
def uVal (l : List Char) : Nat :=
  l.foldl (fun n c => if c.isDigit then n * 10 + (c.toNat - 48) else n) 0

/-- Number of actual digits in a digit group. -/
def digCount (l : List Char) : Nat := (l.filter Char.isDigit).length

def pow10 : Int → ℚ
  | Int.ofNat n => (10 : ℚ) ^ n
  | Int.negSucc n => 1 / (10 : ℚ) ^ (n + 1)

/-- Parses an optional decimal exponent: the empty remainder yields exponent
zero; otherwise the remainder must be `e`/`E`, an optional sign and digits. -/
def parseExp : List Char → Option Int
  | [] => some 0
  | c :: t =>
    if c == 'e' || c == 'E' then
      match t with
      | '+' :: t2 => if uDigitsOk t2 then some (Int.ofNat (uVal t2)) else none
      | '-' :: t2 => if uDigitsOk t2 then some (-(Int.ofNat (uVal t2))) else none
      | t2 => if uDigitsOk t2 then some (Int.ofNat (uVal t2)) else none
    else none

/-- Fractional value of the digits after the decimal point. -/
def fracVal (l : List Char) : ℚ :=
  if l.isEmpty then 0 else (uVal l : ℚ) / (10 : ℚ) ^ digCount l

/-- Model of Python `float(str)` restricted to finite decimal literals:
optional surrounding whitespace, optional sign, a digit group with optional
fraction and optional decimal exponent (underscore separators allowed).  The
non-finite forms `inf`/`infinity`/`nan` are not modelled, and the result is
an exact rational rather than an IEEE double. -/
def parseFloat (str : String) : Option ℚ :=
  let cs0 := trimWs str.data
  let sp : ℚ × List Char :=
    match cs0 with
    | '+' :: t => (1, t)
    | '-' :: t => (-1, t)
    | t => (1, t)
  let ints := (takeDigitsU sp.2).1
  let r1 := (takeDigitsU sp.2).2
  match r1 with
  | '.' :: r2 =>
    let frs := (takeDigitsU r2).1
    let r3 := (takeDigitsU r2).2
    match parseExp r3 with
    | none => none
    | some e =>
      if ints.isEmpty then
        if uDigitsOk frs then some (sp.1 * fracVal frs * pow10 e) else none
      else
        if uDigitsOk ints && (frs.isEmpty || uDigitsOk frs) then
          some (sp.1 * ((uVal ints : ℚ) + fracVal frs) * pow10 e)
        else none
  | r1' =>
    match parseExp r1' with
    | none => none
    | some e =>
      if uDigitsOk ints then some (sp.1 * (uVal ints : ℚ) * pow10 e) else none

/-- Model of Python `int(str)` (base 10): optional surrounding whitespace,
optional sign, digits with optional underscore separators. -/
def parseInt (str : String) : Option ℤ :=
  let cs0 := trimWs str.data
  match cs0 with
  | '+' :: t => if uDigitsOk t then some (Int.ofNat (uVal t)) else none
  | '-' :: t => if uDigitsOk t then some (-(Int.ofNat (uVal t))) else none
  | t => if uDigitsOk t then some (Int.ofNat (uVal t)) else none

def isLeap (y : Nat) : Bool :=
  (y % 4 == 0 && y % 100 != 0) || y % 400 == 0

def daysInMonth (y m : Nat) : Nat :=
  if m = 2 then (if isLeap y then 29 else 28)
  else if m = 4 || m = 6 || m = 9 || m = 11 then 30
  else 31

/-- Reads two decimal digits. -/
def twoDig : List Char → Option (Nat × List Char)
  | a :: b :: t =>
    if a.isDigit && b.isDigit then some (10 * (a.toNat - 48) + (b.toNat - 48), t)
    else none
  | _ => none

/-- Validity of the time part `HH[:MM[:SS[.ffffff]]]` of an ISO timestamp. -/
def timeOk (l : List Char) : Bool :=
  match twoDig l with
  | none => false
  | some (h, t) =>
    decide (h < 24) &&
      (match t with
       | [] => true
       | ':' :: t2 =>
         match twoDig t2 with
         | none => false
         | some (mi, t3) =>
           decide (mi < 60) &&
             (match t3 with
              | [] => true
              | ':' :: t4 =>
                match twoDig t4 with
                | none => false
                | some (se, t5) =>
                  decide (se < 60) &&
                    (match t5 with
                     | [] => true
                     | '.' :: t6 =>
                       (!t6.isEmpty) && decide (t6.length ≤ 6) && t6.all Char.isDigit
                     | ',' :: t6 =>
                       (!t6.isEmpty) && decide (t6.length ≤ 6) && t6.all Char.isDigit
                     | _ => false)
              | _ => false)
       | _ => false)

/-- Model of `datetime.fromisoformat(s)` followed by `strftime("%Y-%m")` on
the common extended format `YYYY-MM-DD[<sep>HH:MM:SS[.ffffff]]` written by
`datetime.isoformat()`: on success the result is the `YYYY-MM` prefix of the
input; timezone offsets and the compact basic format are outside the model. -/
def parseIsoMonth (str : String) : Option String :=
  match str.data with
  | y1 :: y2 :: y3 :: y4 :: '-' :: m1 :: m2 :: '-' :: d1 :: d2 :: rest =>
    if [y1, y2, y3, y4, m1, m2, d1, d2].all Char.isDigit then
      let y := uVal [y1, y2, y3, y4]
      let m := uVal [m1, m2]
      let d := uVal [d1, d2]
      if 1 ≤ y && 1 ≤ m && m ≤ 12 && 1 ≤ d && d ≤ daysInMonth y m &&
          (match rest with
           | [] => true
           | _ :: t => timeOk t) then
        some (String.mk [y1, y2, y3, y4, '-', m1, m2])
      else none
    else none
  | _ => none

/-- Model of Python `str.lower()` (ASCII case folding). -/
def lowerStr (s : String) : String := String.mk (s.data.map Char.toLower)

/-- Boolean test that `q` occurs as a prefix of `l`. -/
def isPrefixB : List Char → List Char → Bool
  | [], _ => true
  | _ :: _, [] => false
  | a :: as, b :: bs => a == b && isPrefixB as bs

/-- Boolean test that `q` occurs as a contiguous substring of `l`
(the model of the Python `in` operator on strings). -/
def containsSub : List Char → List Char → Bool
  | q, [] => q.isEmpty
  | q, _ :: t => isPrefixB q (q.headD ' ' :: t) || containsSub q t

/-- String-level substring test. -/
def substrB (q s : String) : Bool := containsSub q.data s.data

/-! ## The store.

Keys are structured, mirroring the string key scheme of redis_core.py (ids
are opaque UUIDs / invoice / stock codes, so the scheme is injective).
A value lives in the namespace matching its Redis type: hashes (field maps),
sets, sorted sets (member/score maps), lists, and plain string values (only
the JSON product-details cache, stored here as the cached field map since
`json.loads` inverts `json.dumps`).  Redis `DEL` removes a key whatever its
type.  Set iteration order is determinized as insertion order; where a claim
depends on an enumeration order that Redis/Python leaves unspecified (the
category key scan of the analytics run) the enumeration is an explicit
parameter.  Expiry of the cache key is not modelled: a present cache entry
represents a read within the 60-unit expiry window. -/

inductive RKey where
  | productHash (pid : String)
  | productAllIds
  | categoryProducts (cat : String)
  | productPrices
  | productSales (pid : String)
  | cacheProductDetails (pid : String)
  | userHash (uid : String)
  | userAllIds
  | userOrders (uid : String)
  | orderHash (oid : String)
  | orderAllIds
  | orderItems (oid : String)
  | orderItemHash (iid : String)
deriving DecidableEq, Repr

abbrev FieldMap := List (String × String)

structure Store where
  hashes : List (RKey × FieldMap)
  sets : List (RKey × List String)
  zsets : List (RKey × List (String × ℚ))
  lists : List (RKey × List String)
  kv : List (RKey × FieldMap)
deriving DecidableEq, Repr

def Store.empty : Store := ⟨[], [], [], [], []⟩

def Store.hgetall (s : Store) (k : RKey) : FieldMap := agetD s.hashes k []

def Store.hget (s : Store) (k : RKey) (f : String) : Option String :=
  aget (s.hgetall k) f

def Store.hset (s : Store) (k : RKey) (f v : String) : Store :=
  { s with hashes := aset s.hashes k (aset (s.hgetall k) f v) }

def Store.smembers (s : Store) (k : RKey) : List String := agetD s.sets k []

def Store.scard (s : Store) (k : RKey) : Nat := (s.smembers k).length

def Store.sadd (s : Store) (k : RKey) (v : String) : Store :=
  { s with
    sets := aset s.sets k
      (if v ∈ s.smembers k then s.smembers k else s.smembers k ++ [v]) }

/-- SREM; an emptied set key is removed, as Redis removes empty sets. -/
def Store.srem (s : Store) (k : RKey) (v : String) : Store :=
  if ((s.smembers k).filter (fun x => x != v)).isEmpty
  then { s with sets := adel s.sets k }
  else { s with sets := aset s.sets k ((s.smembers k).filter (fun x => x != v)) }

def Store.zscore (s : Store) (k : RKey) (m : String) : Option ℚ :=
  aget (agetD s.zsets k []) m

def Store.zadd (s : Store) (k : RKey) (m : String) (sc : ℚ) : Store :=
  { s with zsets := aset s.zsets k (aset (agetD s.zsets k []) m sc) }

def Store.zrem (s : Store) (k : RKey) (m : String) : Store :=
  match aget s.zsets k with
  | none => s
  | some l => { s with zsets := aset s.zsets k (adel l m) }

def Store.lrangeAll (s : Store) (k : RKey) : List String := agetD s.lists k []

/-- LREM with count 0: removes every occurrence; an emptied list key is
removed, as Redis removes empty lists. -/
def Store.lremAll (s : Store) (k : RKey) (v : String) : Store :=
  if ((s.lrangeAll k).filter (fun x => x != v)).isEmpty
  then { s with lists := adel s.lists k }
  else { s with lists := aset s.lists k ((s.lrangeAll k).filter (fun x => x != v)) }

def Store.kvGet (s : Store) (k : RKey) : Option FieldMap := aget s.kv k

/-- SETEX: the 60-unit TTL is not modelled (entries represent the state
within the expiry window). -/
def Store.kvSetex (s : Store) (k : RKey) (v : FieldMap) : Store :=
  { s with kv := aset s.kv k v }

def Store.del (s : Store) (k : RKey) : Store :=
  { hashes := adel s.hashes k, sets := adel s.sets k, zsets := adel s.zsets k,
    lists := adel s.lists k, kv := adel s.kv k }

/-! ### Componentwise effect lemmas for the store operations. -/

@[simp] theorem hgetall_sadd (s : Store) (k k2 : RKey) (v : String) :
    (s.sadd k v).hgetall k2 = s.hgetall k2 := rfl

@[simp] theorem hgetall_srem (s : Store) (k k2 : RKey) (v : String) :
    (s.srem k v).hgetall k2 = s.hgetall k2 := by
  unfold Store.srem
  split_ifs <;> rfl

@[simp] theorem hgetall_zadd (s : Store) (k k2 : RKey) (m : String) (sc : ℚ) :
    (s.zadd k m sc).hgetall k2 = s.hgetall k2 := rfl

@[simp] theorem hgetall_zrem (s : Store) (k k2 : RKey) (m : String) :
    (s.zrem k m).hgetall k2 = s.hgetall k2 := by
  unfold Store.zrem
  cases aget s.zsets k <;> rfl

@[simp] theorem hgetall_lremAll (s : Store) (k k2 : RKey) (v : String) :
    (s.lremAll k v).hgetall k2 = s.hgetall k2 := by
  unfold Store.lremAll
  split_ifs <;> rfl

@[simp] theorem hgetall_kvSetex (s : Store) (k k2 : RKey) (v : FieldMap) :
    (s.kvSetex k v).hgetall k2 = s.hgetall k2 := rfl

theorem hgetall_hset_self (s : Store) (k : RKey) (f v : String) :
    (s.hset k f v).hgetall k = aset (s.hgetall k) f v := by
  simp [Store.hset, Store.hgetall, agetD]

theorem hgetall_hset_ne (s : Store) (k k2 : RKey) (f v : String) (h : k2 ≠ k) :
    (s.hset k f v).hgetall k2 = s.hgetall k2 := by
  simp [Store.hset, Store.hgetall, agetD, h]

@[simp] theorem hgetall_del (s : Store) (k k2 : RKey) :
    (s.del k).hgetall k2 = if k2 = k then [] else s.hgetall k2 := by
  by_cases h : k2 = k <;> simp [Store.del, Store.hgetall, agetD, h]

@[simp] theorem smembers_hset (s : Store) (k k2 : RKey) (f v : String) :
    (s.hset k f v).smembers k2 = s.smembers k2 := rfl

@[simp] theorem smembers_zadd (s : Store) (k k2 : RKey) (m : String) (sc : ℚ) :
    (s.zadd k m sc).smembers k2 = s.smembers k2 := rfl

@[simp] theorem smembers_zrem (s : Store) (k k2 : RKey) (m : String) :
    (s.zrem k m).smembers k2 = s.smembers k2 := by
  unfold Store.zrem
  cases aget s.zsets k <;> rfl

@[simp] theorem smembers_lremAll (s : Store) (k k2 : RKey) (v : String) :
    (s.lremAll k v).smembers k2 = s.smembers k2 := by
  unfold Store.lremAll
  split_ifs <;> rfl

@[simp] theorem smembers_kvSetex (s : Store) (k k2 : RKey) (v : FieldMap) :
    (s.kvSetex k v).smembers k2 = s.smembers k2 := rfl

@[simp] theorem smembers_del (s : Store) (k k2 : RKey) :
    (s.del k).smembers k2 = if k2 = k then [] else s.smembers k2 := by
  by_cases h : k2 = k <;> simp [Store.del, Store.smembers, agetD, h]

theorem smembers_sadd_self (s : Store) (k : RKey) (v : String) :
    (s.sadd k v).smembers k =
      if v ∈ s.smembers k then s.smembers k else s.smembers k ++ [v] := by
  simp [Store.sadd, Store.smembers, agetD]

theorem smembers_sadd_ne (s : Store) (k k2 : RKey) (v : String) (h : k2 ≠ k) :
    (s.sadd k v).smembers k2 = s.smembers k2 := by
  simp [Store.sadd, Store.smembers, agetD, h]

theorem mem_smembers_sadd_iff (s : Store) (k : RKey) (v x : String) :
    x ∈ (s.sadd k v).smembers k ↔ x ∈ s.smembers k ∨ x = v := by
  rw [smembers_sadd_self]
  by_cases h : v ∈ s.smembers k
  · simp only [if_pos h]
    constructor
    · exact Or.inl
    · rintro (hx | rfl)
      · exact hx
      · exact h
  · simp [if_neg h]

theorem smembers_srem_self (s : Store) (k : RKey) (v : String) :
    (s.srem k v).smembers k = (s.smembers k).filter (fun x => x != v) := by
  unfold Store.srem
  split_ifs with h
  · show agetD (adel s.sets k) k [] = _
    rw [agetD, aget_adel_self, Option.getD_none, List.isEmpty_iff.mp h]
  · show agetD (aset s.sets k _) k [] = _
    rw [agetD, aget_aset_self, Option.getD_some]

theorem smembers_srem_ne (s : Store) (k k2 : RKey) (v : String) (h : k2 ≠ k) :
    (s.srem k v).smembers k2 = s.smembers k2 := by
  unfold Store.srem
  split_ifs with he
  · show agetD (adel s.sets k) k2 [] = _
    rw [agetD, aget_adel_ne _ _ _ h]; rfl
  · show agetD (aset s.sets k _) k2 [] = _
    rw [agetD, aget_aset_ne _ _ _ _ h]; rfl

@[simp] theorem zscore_hset (s : Store) (k k2 : RKey) (f v : String) (m : String) :
    (s.hset k f v).zscore k2 m = s.zscore k2 m := rfl

@[simp] theorem zscore_sadd (s : Store) (k k2 : RKey) (v m : String) :
    (s.sadd k v).zscore k2 m = s.zscore k2 m := rfl

@[simp] theorem zscore_srem (s : Store) (k k2 : RKey) (v m : String) :
    (s.srem k v).zscore k2 m = s.zscore k2 m := by
  unfold Store.srem
  split_ifs <;> rfl

@[simp] theorem zscore_lremAll (s : Store) (k k2 : RKey) (v m : String) :
    (s.lremAll k v).zscore k2 m = s.zscore k2 m := by
  unfold Store.lremAll
  split_ifs <;> rfl

@[simp] theorem zscore_kvSetex (s : Store) (k k2 : RKey) (v : FieldMap) (m : String) :
    (s.kvSetex k v).zscore k2 m = s.zscore k2 m := rfl

theorem zscore_zrem_self (s : Store) (k : RKey) (m : String) :
    (s.zrem k m).zscore k m = none := by
  unfold Store.zrem Store.zscore
  cases hz : aget s.zsets k with
  | none => simp [agetD, hz]
  | some l => simp [agetD]

theorem zscore_del (s : Store) (k k2 : RKey) (m : String) :
    (s.del k).zscore k2 m = if k2 = k then none else s.zscore k2 m := by
  by_cases h : k2 = k <;> simp [Store.del, Store.zscore, agetD, h]

@[simp] theorem lrangeAll_hset (s : Store) (k k2 : RKey) (f v : String) :
    (s.hset k f v).lrangeAll k2 = s.lrangeAll k2 := rfl

@[simp] theorem lrangeAll_sadd (s : Store) (k k2 : RKey) (v : String) :
    (s.sadd k v).lrangeAll k2 = s.lrangeAll k2 := rfl

@[simp] theorem lrangeAll_srem (s : Store) (k k2 : RKey) (v : String) :
    (s.srem k v).lrangeAll k2 = s.lrangeAll k2 := by
  unfold Store.srem
  split_ifs <;> rfl

@[simp] theorem lrangeAll_zrem (s : Store) (k k2 : RKey) (m : String) :
    (s.zrem k m).lrangeAll k2 = s.lrangeAll k2 := by
  unfold Store.zrem
  cases aget s.zsets k <;> rfl

@[simp] theorem lrangeAll_zadd (s : Store) (k k2 : RKey) (m : String) (sc : ℚ) :
    (s.zadd k m sc).lrangeAll k2 = s.lrangeAll k2 := rfl

@[simp] theorem lrangeAll_kvSetex (s : Store) (k k2 : RKey) (v : FieldMap) :
    (s.kvSetex k v).lrangeAll k2 = s.lrangeAll k2 := rfl

@[simp] theorem lrangeAll_del (s : Store) (k k2 : RKey) :
    (s.del k).lrangeAll k2 = if k2 = k then [] else s.lrangeAll k2 := by
  by_cases h : k2 = k <;> simp [Store.del, Store.lrangeAll, agetD, h]

theorem lrangeAll_lremAll_self (s : Store) (k : RKey) (v : String) :
    (s.lremAll k v).lrangeAll k = (s.lrangeAll k).filter (fun x => x != v) := by
  unfold Store.lremAll
  split_ifs with h
  · show agetD (adel s.lists k) k [] = _
    rw [agetD, aget_adel_self, Option.getD_none, List.isEmpty_iff.mp h]
  · show agetD (aset s.lists k _) k [] = _
    rw [agetD, aget_aset_self, Option.getD_some]

theorem lrangeAll_lremAll_ne (s : Store) (k k2 : RKey) (v : String) (h : k2 ≠ k) :
    (s.lremAll k v).lrangeAll k2 = s.lrangeAll k2 := by
  unfold Store.lremAll
  split_ifs with he
  · show agetD (adel s.lists k) k2 [] = _
    rw [agetD, aget_adel_ne _ _ _ h]; rfl
  · show agetD (aset s.lists k _) k2 [] = _
    rw [agetD, aget_aset_ne _ _ _ _ h]; rfl

@[simp] theorem kvGet_hset (s : Store) (k k2 : RKey) (f v : String) :
    (s.hset k f v).kvGet k2 = s.kvGet k2 := rfl

@[simp] theorem kvGet_sadd (s : Store) (k k2 : RKey) (v : String) :
    (s.sadd k v).kvGet k2 = s.kvGet k2 := rfl

@[simp] theorem kvGet_srem (s : Store) (k k2 : RKey) (v : String) :
    (s.srem k v).kvGet k2 = s.kvGet k2 := by
  unfold Store.srem
  split_ifs <;> rfl

@[simp] theorem kvGet_zadd (s : Store) (k k2 : RKey) (m : String) (sc : ℚ) :
    (s.zadd k m sc).kvGet k2 = s.kvGet k2 := rfl

@[simp] theorem kvGet_zrem (s : Store) (k k2 : RKey) (m : String) :
    (s.zrem k m).kvGet k2 = s.kvGet k2 := by
  unfold Store.zrem
  cases aget s.zsets k <;> rfl

@[simp] theorem kvGet_lremAll (s : Store) (k k2 : RKey) (v : String) :
    (s.lremAll k v).kvGet k2 = s.kvGet k2 := by
  unfold Store.lremAll
  split_ifs <;> rfl

theorem kvGet_kvSetex_self (s : Store) (k : RKey) (v : FieldMap) :
    (s.kvSetex k v).kvGet k = some v := by
  simp [Store.kvSetex, Store.kvGet]

theorem kvGet_kvSetex_ne (s : Store) (k k2 : RKey) (v : FieldMap) (h : k2 ≠ k) :
    (s.kvSetex k v).kvGet k2 = s.kvGet k2 := by
  simp [Store.kvSetex, Store.kvGet, h]

@[simp] theorem kvGet_del (s : Store) (k k2 : RKey) :
    (s.del k).kvGet k2 = if k2 = k then none else s.kvGet k2 := by
  by_cases h : k2 = k <;> simp [Store.del, Store.kvGet, h]

/-! ## CRUD operations (redis_core.py lines 346-640).

Each function returns the (message-truthiness) success flag together with
the resulting store.  In the source the pipelined writes are queued and only
applied by `pipe.execute()`; an exception raised while queueing (a missing
dict key or a failed `float(...)`) aborts before `execute`, so the failing
branches return the input store unchanged.  All direct reads
(`hget`/`hgetall`/`lrange`) happen before `execute`, as in the source. -/

/-- get_product_details (lines 346-357): read through the
`cache:product_details:{id}` entry; on a miss with a nonempty primary
record, populate the cache (`setex .. 60 ..`).  Returns the field map
(empty when the product is absent) and the possibly updated store. -/
def get_product_details (s : Store) (pid : String) : FieldMap × Store :=
  match s.kvGet (.cacheProductDetails pid) with
  | some cached => (cached, s)
  | none =>
    let details := s.hgetall (.productHash pid)
    if details.isEmpty then (details, s)
    else (details, s.kvSetex (.cacheProductDetails pid) details)

/-- add_product (lines 360-375).  The fresh `uuid4` id is passed as the
`pid` parameter.  The queued pipeline writes every field of `product_data`,
the `product_id` field, the `product:all_ids` and `category:{..}:products`
memberships and the `product:prices` score; a missing `category` or
`price` key or an unparseable price raises while queueing, discarding the
pipeline, so the store is returned unchanged with the failure flag. -/
def add_product (s : Store) (pid : String) (product_data : FieldMap) :
    Bool × Store :=
  match aget product_data "category", aget product_data "price" with
  | some cat, some pstr =>
    match parseFloat pstr with
    | some pr =>
      let s1 := product_data.foldl
        (fun st kv => st.hset (.productHash pid) kv.1 kv.2) s
      let s2 := s1.hset (.productHash pid) "product_id" pid
      let s3 := s2.sadd .productAllIds pid
      let s4 := s3.sadd (.categoryProducts cat) pid
      let s5 := s4.zadd .productPrices pid pr
      (true, s5)
    | none => (false, s)
  | _, _ => (false, s)

/-- update_product_details (lines 377-400): reads the old category before
queueing the field writes; queues a price-index update when `price` is in
`data` (an unparseable price raises at queue time, discarding the
pipeline); moves the id between category sets when `data` has a `category`,
the old category is truthy (present and nonempty) and differs from the new
one; after execution deletes the `cache:product_details:{id}` entry.  No
existence check is made: updating an absent id creates its hash. -/
def update_product_details (s : Store) (pid : String) (data : FieldMap) :
    Bool × Store :=
  let old_category := s.hget (.productHash pid) "category"
  let price? : Option (Option ℚ) :=
    match aget data "price" with
    | none => some none
    | some pstr =>
      match parseFloat pstr with
      | none => none
      | some pr => some (some pr)
  match price? with
  | none => (false, s)
  | some pr? =>
    let s1 := data.foldl (fun st kv => st.hset (.productHash pid) kv.1 kv.2) s
    let s2 := match pr? with
      | some pr => s1.zadd .productPrices pid pr
      | none => s1
    let s3 := match aget data "category", old_category with
      | some newc, some oldc =>
        if oldc ≠ "" ∧ oldc ≠ newc then
          (s2.srem (.categoryProducts oldc) pid).sadd (.categoryProducts newc) pid
        else s2
      | _, _ => s2
    (true, s3.del (.cacheProductDetails pid))

/-- delete_product (lines 402-428): fails when the primary record is empty;
otherwise deletes the hash, removes the id from `product:all_ids` and
`product:prices`, removes it from the category set only when the stored
category is truthy (present and nonempty), and deletes the
`product:{id}:sales` list.  The `cache:product_details:{id}` entry is NOT
deleted. -/
def delete_product (s : Store) (pid : String) : Bool × Store :=
  let details := s.hgetall (.productHash pid)
  if details.isEmpty then (false, s)
  else
    let category := aget details "category"
    let s1 := s.del (.productHash pid)
    let s2 := s1.srem .productAllIds pid
    let s3 := s2.zrem .productPrices pid
    let s4 := match category with
      | some c => if c = "" then s3 else s3.srem (.categoryProducts c) pid
      | none => s3
    (true, s4.del (.productSales pid))

/-- add_user (lines 493-506); the fresh uuid is the `uid` parameter. -/
def add_user (s : Store) (uid : String) (user_data : FieldMap) : Bool × Store :=
  let s1 := user_data.foldl (fun st kv => st.hset (.userHash uid) kv.1 kv.2) s
  let s2 := s1.hset (.userHash uid) "user_id" uid
  (true, s2.sadd .userAllIds uid)

/-- update_user_details (lines 508-518): writes the fields with no
existence check and reports success. -/
def update_user_details (s : Store) (uid : String) (data : FieldMap) :
    Bool × Store :=
  (true, data.foldl (fun st kv => st.hset (.userHash uid) kv.1 kv.2) s)

/-- delete_user (lines 520-532): deletes the hash, the all-ids membership
and the order-history list, with no existence check, and reports success. -/
def delete_user (s : Store) (uid : String) : Bool × Store :=
  let s1 := s.del (.userHash uid)
  let s2 := s1.srem .userAllIds uid
  (true, s2.del (.userOrders uid))

/-- update_order_status (lines 600-607): a single field write, no existence
check, reports success. -/
def update_order_status (s : Store) (oid : String) (new_status : String) :
    Bool × Store :=
  (true, s.hset (.orderHash oid) "status" new_status)

/-- delete_order (lines 609-640): fails when the primary record is empty;
otherwise reads `user_id` and the item-id list before executing, deletes
the order hash, removes the id from `order:all_ids`, LREMs it from the
owning user's `user:{uid}:orders` when `user_id` is truthy, deletes each
`order_item:{iid}` hash and (when the item list was nonempty) the
`order:{id}:items` list.  The per-product `product:{pid}:sales` ledgers are
deliberately not touched. -/
def delete_order (s : Store) (oid : String) : Bool × Store :=
  let details := s.hgetall (.orderHash oid)
  if details.isEmpty then (false, s)
  else
    let user_id := aget details "user_id"
    let item_ids := s.lrangeAll (.orderItems oid)
    let s1 := s.del (.orderHash oid)
    let s2 := s1.srem .orderAllIds oid
    let s3 := match user_id with
      | some u => if u = "" then s2 else s2.lremAll (.userOrders u) oid
      | none => s2
    let s4 :=
      if item_ids.isEmpty then s3
      else
        (item_ids.foldl (fun st iid => st.del (.orderItemHash iid)) s3).del
          (.orderItems oid)
    (true, s4)

/-! ## Query layer (redis_core.py lines 299-344, 446-484, 535-576).

Each `get_all_*` loads the all-ids set, fetches every nonempty primary
record, applies the case-insensitive substring filter over the entity's
text fields when a query is given, computes `total = |filtered|` and slices
`filtered[(page-1)*page_size : page*page_size]`.  The product and order
listings additionally coerce `price`/`stock` (resp. `total_amount`) of each
returned entry to numbers; a failed coercion raises out of the function,
rendered as `none`.  Coerced field maps take values in `FVal`. -/

inductive FVal where
  | s (v : String)
  | f (v : ℚ)
  | i (v : ℤ)
deriving DecidableEq, Repr

def productsDetails (s : Store) : List FieldMap :=
  (s.smembers .productAllIds).filterMap (fun pid =>
    let d := s.hgetall (.productHash pid)
    if d.isEmpty then none else some d)

def productMatch (q : String) (p : FieldMap) : Bool :=
  substrB (lowerStr q) (lowerStr (agetD p "name" "")) ||
  substrB (lowerStr q) (lowerStr (agetD p "description" "")) ||
  substrB (lowerStr q) (lowerStr (agetD p "category" ""))

def productsFiltered (s : Store) (q : String) : List FieldMap :=
  if q = "" then productsDetails s
  else (productsDetails s).filter (productMatch q)

/-- The per-entry coercion of the product listing: `details["price"] =
float(details.get("price", 0))` then `details["stock"] =
int(details.get("stock", 0))`, `none` when a parse raises. -/
def fmtProduct (d : FieldMap) : Option (List (String × FVal)) :=
  match parseFloat (agetD d "price" "0"), parseInt (agetD d "stock" "0") with
  | some pr, some st =>
    some (aset (aset (d.map (fun kv => (kv.1, FVal.s kv.2))) "price" (.f pr))
      "stock" (.i st))
  | _, _ => none

def get_all_products (s : Store) (page page_size : Nat) (q : String) :
    Option (List (List (String × FVal)) × Nat) :=
  let filtered := productsFiltered s q
  let current := (filtered.drop ((page - 1) * page_size)).take page_size
  match current.mapM fmtProduct with
  | some formatted => some (formatted, filtered.length)
  | none => none

def usersDetails (s : Store) : List FieldMap :=
  (s.smembers .userAllIds).filterMap (fun uid =>
    let d := s.hgetall (.userHash uid)
    if d.isEmpty then none else some d)

def userMatch (q : String) (u : FieldMap) : Bool :=
  substrB (lowerStr q) (lowerStr (agetD u "username" "")) ||
  substrB (lowerStr q) (lowerStr (agetD u "email" ""))

def usersFiltered (s : Store) (q : String) : List FieldMap :=
  if q = "" then usersDetails s else (usersDetails s).filter (userMatch q)

def get_all_users (s : Store) (page page_size : Nat) (q : String) :
    List FieldMap × Nat :=
  let filtered := usersFiltered s q
  (((filtered.drop ((page - 1) * page_size)).take page_size), filtered.length)

def ordersDetails (s : Store) : List FieldMap :=
  (s.smembers .orderAllIds).filterMap (fun oid =>
    let d := s.hgetall (.orderHash oid)
    if d.isEmpty then none else some d)

def orderMatch (q : String) (o : FieldMap) : Bool :=
  substrB (lowerStr q) (lowerStr (agetD o "order_id" "")) ||
  substrB (lowerStr q) (lowerStr (agetD o "user_id" "")) ||
  substrB (lowerStr q) (lowerStr (agetD o "country" "")) ||
  substrB (lowerStr q) (lowerStr (agetD o "status" ""))

def ordersFiltered (s : Store) (q : String) : List FieldMap :=
  if q = "" then ordersDetails s else (ordersDetails s).filter (orderMatch q)

/-- The order listing coercion: `details["total_amount"] =
float(details.get("total_amount", 0))`. -/
def fmtOrder (d : FieldMap) : Option (List (String × FVal)) :=
  match parseFloat (agetD d "total_amount" "0") with
  | some amt => some (aset (d.map (fun kv => (kv.1, FVal.s kv.2))) "total_amount" (.f amt))
  | none => none

def get_all_orders (s : Store) (page page_size : Nat) (q : String) :
    Option (List (List (String × FVal)) × Nat) :=
  let filtered := ordersFiltered s q
  let current := (filtered.drop ((page - 1) * page_size)).take page_size
  match current.mapM fmtOrder with
  | some formatted => some (formatted, filtered.length)
  | none => none

/-! ## Analytics (redis_core.py lines 644-756): the two results the claims
are about, as standalone reductions of the same store state. -/

/-- Stable insertion: `x` is placed before the first element it may precede,
matching the stability of Python `sorted`. -/
def insertBy {α : Type} (le : α → α → Bool) (x : α) : List α → List α
  | [] => [x]
  | y :: ys => if le x y then x :: y :: ys else y :: insertBy le x ys

/-- Stable sort with respect to the Boolean relation `le`; the model of
Python `sorted` (with `reverse=True` rendered by flipping `le`). -/
def sortBy {α : Type} (le : α → α → Bool) (l : List α) : List α :=
  l.foldr (insertBy le) []

/-- top_categories (lines 657-668): the category names are collected into a
Python set whose iteration order is unspecified, so the enumeration `cats`
is an explicit parameter (a duplicate-free listing of the existing
`category:*:products` keys); counts are the set cardinalities; the pairs
are stably sorted by count descending (`sorted(..., key=item[1],
reverse=True)`) and truncated to five. -/
def top_categories (s : Store) (cats : List String) : List (String × Nat) :=
  (sortBy (fun a b => decide (b.2 ≤ a.2))
    (cats.map (fun c => (c, s.scard (.categoryProducts c))))).take 5

/-- Whether `cats` is an admissible iteration order of the category-name
set scanned from `category:*:products` keys (lines 657-661). -/
def isCategoryEnum (s : Store) (cats : List String) : Prop :=
  cats.Nodup ∧ ∀ c, c ∈ cats ↔ (RKey.categoryProducts c) ∈ s.sets.map Prod.fst

/-- The month key and amount of one order's hash, when both parse
(lines 741-750): `datetime.fromisoformat` + `strftime("%Y-%m")` on
`order_date` and `float` on `total_amount`; `none` models the silently
skipped (`except: pass`) orders, including hashes missing either field. -/
def parseOrderMonthAmount (d : FieldMap) : Option (String × ℚ) :=
  match aget d "order_date", aget d "total_amount" with
  | some ds, some amts =>
    match parseIsoMonth ds, parseFloat amts with
    | some m, some a => some (m, a)
    | _, _ => none
  | _, _ => none

/-- The parsed (month, amount) stream of the order scan (lines 732-750). -/
def ordersParsed (s : Store) : List (String × ℚ) :=
  (s.smembers .orderAllIds).filterMap (fun oid =>
    parseOrderMonthAmount (s.hgetall (.orderHash oid)))

/-- The dict accumulation `monthly_sales[k] = monthly_sales.get(k, 0.0) +
amount` over the parsed stream. -/
def groupFold (ps : List (String × ℚ)) : List (String × ℚ) :=
  ps.foldl (fun acc p => aset acc p.1 (agetD acc p.1 0 + p.2)) []

/-- monthly_sales_trend (lines 731-754): accumulate per month key, then
`sorted(monthly_sales.items())`; the dict keys are distinct so the tuple
sort orders by month key ascending. -/
def monthly_sales_trend (s : Store) : List (String × ℚ) :=
  sortBy (fun a b => decide (a.1 ≤ b.1)) (groupFold (ordersParsed s))

/-! ## Generic lemmas: the stable sort, page chunking, `mapM` over total
inputs, and the dict accumulation. -/

theorem insertBy_perm {α : Type} (le : α → α → Bool) (x : α) (l : List α) :
    (insertBy le x l).Perm (x :: l) := by
  induction l with
  | nil => exact List.Perm.refl _
  | cons y ys ih =>
    by_cases h : le x y
    · simp [insertBy, h]
    · simp only [insertBy, if_neg h]
      exact (List.Perm.cons y ih).trans (List.Perm.swap x y ys)

theorem sortBy_perm {α : Type} (le : α → α → Bool) (l : List α) :
    (sortBy le l).Perm l := by
  induction l with
  | nil => exact List.Perm.refl _
  | cons x xs ih =>
    exact (insertBy_perm le x (sortBy le xs)).trans (List.Perm.cons x ih)

theorem mem_insertBy {α : Type} (le : α → α → Bool) (x a : α) (l : List α) :
    a ∈ insertBy le x l ↔ a = x ∨ a ∈ l := by
  rw [(insertBy_perm le x l).mem_iff]
  simp

theorem insertBy_pairwise {α : Type} (le : α → α → Bool)
    (htot : ∀ a b, le a b = true ∨ le b a = true)
    (htrans : ∀ a b c, le a b = true → le b c = true → le a c = true)
    (x : α) (l : List α) (hl : l.Pairwise (fun a b => le a b = true)) :
    (insertBy le x l).Pairwise (fun a b => le a b = true) := by
  induction l with
  | nil => simp [insertBy]
  | cons y ys ih =>
    rcases hl with _ | ⟨hy, hys⟩
    by_cases h : le x y
    · simp only [insertBy, if_pos h]
      refine List.Pairwise.cons ?_ (List.Pairwise.cons hy hys)
      intro z hz
      rcases List.mem_cons.mp hz with rfl | hz
      · exact h
      · exact htrans x y z h (hy z hz)
    · simp only [insertBy, if_neg h]
      refine List.Pairwise.cons ?_ (ih hys)
      intro z hz
      rcases (mem_insertBy le x z ys).mp hz with rfl | hz
      · rcases htot z y with hzy | hyz
        · exact absurd hzy h
        · exact hyz
      · exact hy z hz

theorem sortBy_sorted {α : Type} (le : α → α → Bool)
    (htot : ∀ a b, le a b = true ∨ le b a = true)
    (htrans : ∀ a b c, le a b = true → le b c = true → le a c = true)
    (l : List α) : (sortBy le l).Pairwise (fun a b => le a b = true) := by
  induction l with
  | nil => simp [sortBy]
  | cons x xs ih => exact insertBy_pairwise le htot htrans x (sortBy le xs) ih

theorem flatChunks_take {α : Type} (l : List α) (P : Nat) :
    ∀ k, (List.range k).flatMap (fun i => (l.drop (i * P)).take P) =
      l.take (k * P) := by
  intro k
  induction k with
  | zero => simp
  | succ k ih =>
    rw [List.range_succ, List.flatMap_append, ih]
    simp only [List.flatMap_cons, List.flatMap_nil, List.append_nil]
    rw [Nat.succ_mul, List.take_add]

theorem ceil_mul_ge (N P : Nat) (hP : 1 ≤ P) : N ≤ ((N + P - 1) / P) * P := by
  by_contra hc
  push_neg at hc
  have h1 : ((N + P - 1) / P) * P + 1 ≤ N := Nat.succ_le_of_lt hc
  have h2 : ((N + P - 1) / P) * P + P ≤ N + P - 1 := by omega
  have h3 : ((N + P - 1) / P) + 1 ≤ (N + P - 1) / P := by
    rw [Nat.le_div_iff_mul_le (by omega : 0 < P), Nat.add_mul, Nat.one_mul]
    exact h2
  omega

theorem flatChunks_eq_self {α : Type} (l : List α) (P : Nat) (hP : 1 ≤ P) :
    (List.range ((l.length + P - 1) / P)).flatMap
      (fun i => (l.drop (i * P)).take P) = l := by
  rw [flatChunks_take]
  exact List.take_of_length_le (ceil_mul_ge l.length P hP)

theorem mapM_eq_map_of_total {α β : Type} (f : α → Option β) (g : α → β)
    (l : List α) (h : ∀ x ∈ l, f x = some (g x)) :
    l.mapM f = some (l.map g) := by
  induction l with
  | nil => rfl
  | cons x xs ih =>
    rw [List.mapM_cons, h x (List.mem_cons_self x xs),
      ih (fun y hy => h y (List.mem_cons_of_mem x hy))]
    rfl

theorem aget_groupFold (ps : List (String × ℚ)) (m : String) :
    aget (groupFold ps) m =
      if m ∈ ps.map Prod.fst then
        some (((ps.filter (fun p => p.1 == m)).map Prod.snd).sum)
      else none := by
  induction ps using List.reverseRecOn with
  | nil => simp [groupFold]
  | append_singleton ps p ih =>
    have hfold : groupFold (ps ++ [p]) =
        aset (groupFold ps) p.1 (agetD (groupFold ps) p.1 0 + p.2) := by
      unfold groupFold
      rw [List.foldl_append]
      rfl
    by_cases hm : p.1 = m
    · subst hm
      rw [hfold, aget_aset_self]
      have hmem : p.1 ∈ (ps ++ [p]).map Prod.fst := by simp
      rw [if_pos hmem, List.filter_append, List.map_append, List.sum_append]
      have hp : List.filter (fun q => q.1 == p.1) [p] = [p] := by simp
      rw [hp]
      by_cases hin : p.1 ∈ ps.map Prod.fst
      · rw [agetD, ih, if_pos hin]
        simp
      · rw [agetD, ih, if_neg hin]
        have hnil : ps.filter (fun q => q.1 == p.1) = [] := by
          rw [List.filter_eq_nil_iff]
          intro q hq hqeq
          exact hin (List.mem_map.mpr ⟨q, hq, by simpa using hqeq⟩)
        rw [hnil]
        simp
    · have hmne : m ≠ p.1 := fun hh => hm hh.symm
      rw [hfold, aget_aset_ne _ _ _ _ hmne, ih]
      have hmem : m ∈ (ps ++ [p]).map Prod.fst ↔ m ∈ ps.map Prod.fst := by
        simp [hmne]
      have hfil : (ps ++ [p]).filter (fun q => q.1 == m) =
          ps.filter (fun q => q.1 == m) := by
        rw [List.filter_append]
        have : List.filter (fun q => q.1 == m) [p] = [] := by simp [hm]
        rw [this, List.append_nil]
      rw [hfil]
      by_cases hin : m ∈ ps.map Prod.fst
      · rw [if_pos hin, if_pos (hmem.mpr hin)]
      · rw [if_neg hin, if_neg (fun hh => hin (hmem.mp hh))]

theorem keys_groupFold_nodup (ps : List (String × ℚ)) :
    ((groupFold ps).map Prod.fst).Nodup := by
  induction ps using List.reverseRecOn with
  | nil => simp [groupFold]
  | append_singleton ps p ih =>
    have hfold : groupFold (ps ++ [p]) =
        aset (groupFold ps) p.1 (agetD (groupFold ps) p.1 0 + p.2) := by
      unfold groupFold
      rw [List.foldl_append]
      rfl
    rw [hfold, keys_aset]
    by_cases hs : (aget (groupFold ps) p.1).isSome
    · rw [if_pos hs]; exact ih
    · rw [if_neg hs]
      have hnotin : p.1 ∉ (groupFold ps).map Prod.fst := by
        rw [← aget_eq_none_iff]
        exact Option.not_isSome_iff_eq_none.mp hs
      rw [List.nodup_append]
      exact ⟨ih, List.nodup_singleton _, by simpa using hnotin⟩

/-! ## Effect lemmas for the pipelined write loops. -/

theorem foldl_hset_smembers (data : FieldMap) (k : RKey) (s : Store) (k2 : RKey) :
    (data.foldl (fun st kv => st.hset k kv.1 kv.2) s).smembers k2 =
      s.smembers k2 := by
  induction data generalizing s with
  | nil => rfl
  | cons kv t ih => rw [List.foldl_cons, ih]; rfl

theorem foldl_hset_zscore (data : FieldMap) (k : RKey) (s : Store) (k2 : RKey)
    (m : String) :
    (data.foldl (fun st kv => st.hset k kv.1 kv.2) s).zscore k2 m =
      s.zscore k2 m := by
  induction data generalizing s with
  | nil => rfl
  | cons kv t ih => rw [List.foldl_cons, ih]; rfl

theorem foldl_hset_lrangeAll (data : FieldMap) (k : RKey) (s : Store) (k2 : RKey) :
    (data.foldl (fun st kv => st.hset k kv.1 kv.2) s).lrangeAll k2 =
      s.lrangeAll k2 := by
  induction data generalizing s with
  | nil => rfl
  | cons kv t ih => rw [List.foldl_cons, ih]; rfl

theorem foldl_hset_kvGet (data : FieldMap) (k : RKey) (s : Store) (k2 : RKey) :
    (data.foldl (fun st kv => st.hset k kv.1 kv.2) s).kvGet k2 = s.kvGet k2 := by
  induction data generalizing s with
  | nil => rfl
  | cons kv t ih => rw [List.foldl_cons, ih]; rfl

theorem foldl_hset_hgetall_ne (data : FieldMap) (k : RKey) (s : Store)
    (k2 : RKey) (h : k2 ≠ k) :
    (data.foldl (fun st kv => st.hset k kv.1 kv.2) s).hgetall k2 =
      s.hgetall k2 := by
  induction data generalizing s with
  | nil => rfl
  | cons kv t ih => rw [List.foldl_cons, ih, hgetall_hset_ne _ _ _ _ _ h]

theorem foldl_hset_hget_of_not_mem (data : FieldMap) (k : RKey) (s : Store)
    (f : String) (h : f ∉ data.map Prod.fst) :
    (data.foldl (fun st kv => st.hset k kv.1 kv.2) s).hget k f = s.hget k f := by
  induction data generalizing s with
  | nil => rfl
  | cons kv t ih =>
    simp only [List.map_cons, List.mem_cons] at h
    push_neg at h
    rw [List.foldl_cons, ih _ h.2]
    show aget ((s.hset k kv.1 kv.2).hgetall k) f = _
    rw [hgetall_hset_self, aget_aset_ne _ _ _ _ h.1]
    rfl

theorem foldl_hset_hget_of_aget (data : FieldMap) (k : RKey) (s : Store)
    (f v : String) (hnd : (data.map Prod.fst).Nodup) (h : aget data f = some v) :
    (data.foldl (fun st kv => st.hset k kv.1 kv.2) s).hget k f = some v := by
  induction data generalizing s with
  | nil => cases h
  | cons kv t ih =>
    simp only [List.map_cons, List.nodup_cons] at hnd
    by_cases hf : kv.1 = f
    · have hv : v = kv.2 := by
        rw [aget_cons, if_pos hf] at h
        cases h; rfl
      subst hv
      rw [List.foldl_cons,
        foldl_hset_hget_of_not_mem t k _ f (by rw [← hf]; exact hnd.1)]
      show aget ((s.hset k kv.1 kv.2).hgetall k) f = _
      rw [hgetall_hset_self, hf, aget_aset_self]
    · rw [aget_cons, if_neg hf] at h
      rw [List.foldl_cons, ih _ hnd.2 h]

theorem hgetall_not_empty_of_hget (s : Store) (k : RKey) (f v : String)
    (h : s.hget k f = some v) : (s.hgetall k).isEmpty = false := by
  unfold Store.hget at h
  cases hk : s.hgetall k with
  | nil => rw [hk] at h; cases h
  | cons a t => rfl

theorem foldl_del_hgetall (items : List String) (s : Store) (k : RKey) :
    (items.foldl (fun st iid => st.del (.orderItemHash iid)) s).hgetall k =
      if k ∈ items.map RKey.orderItemHash then [] else s.hgetall k := by
  induction items generalizing s with
  | nil => simp
  | cons i t ih =>
    rw [List.foldl_cons, ih]
    by_cases hk : k = RKey.orderItemHash i
    · subst hk
      simp
    · by_cases ht : k ∈ t.map RKey.orderItemHash
      · simp [ht]
      · have : k ∉ (i :: t).map RKey.orderItemHash := by
          simp only [List.map_cons, List.mem_cons]
          push_neg
          exact ⟨hk, ht⟩
        simp [ht, this, hk]

theorem foldl_del_smembers (items : List String) (s : Store) (k : RKey)
    (h : k ∉ items.map RKey.orderItemHash) :
    (items.foldl (fun st iid => st.del (.orderItemHash iid)) s).smembers k =
      s.smembers k := by
  induction items generalizing s with
  | nil => rfl
  | cons i t ih =>
    simp only [List.map_cons, List.mem_cons] at h
    push_neg at h
    rw [List.foldl_cons, ih _ h.2, smembers_del, if_neg h.1]

theorem foldl_del_lrangeAll (items : List String) (s : Store) (k : RKey)
    (h : k ∉ items.map RKey.orderItemHash) :
    (items.foldl (fun st iid => st.del (.orderItemHash iid)) s).lrangeAll k =
      s.lrangeAll k := by
  induction items generalizing s with
  | nil => rfl
  | cons i t ih =>
    simp only [List.map_cons, List.mem_cons] at h
    push_neg at h
    rw [List.foldl_cons, ih _ h.2, lrangeAll_del, if_neg h.1]

/-! ## Claim C1 (cache invalidation on update and delete). -/

/-- C1: the claim states that every successful `update_product_details` and
every successful `delete_product` evicts `cache:product_details:{id}`, so a
`get_product_details` immediately after the write never returns the
pre-write snapshot within the expiry window.  `update_product_details`
(line 397) does delete the cache entry, but `delete_product` (lines
402-428) never touches it: this evaluation shows a product being created,
read (populating the cache), then successfully deleted, after which the
primary record is gone yet the cache still holds the pre-delete snapshot
and a read returns that stale snapshot. -/
theorem delete_product_leaves_stale_cache :
    (let s1 := (add_product Store.empty "p"
        [("name", "n"), ("category", "c"), ("price", "3"), ("stock", "5")]).2
     let g1 := get_product_details s1 "p"
     let r2 := delete_product g1.2 "p"
     let g2 := get_product_details r2.2 "p"
     r2.1 = true ∧
     r2.2.hgetall (.productHash "p") = [] ∧
     r2.2.kvGet (.cacheProductDetails "p") = some g1.1 ∧
     g2.1 = g1.1 ∧ g1.1 ≠ []) := by decide

/-! ## Claim C2 (NotFound on update/delete of an absent id). -/

/-- C2 counterexample: the claim states every update and delete on an id
with no primary record fails with NotFound; but `update_user_details` on an
id absent from the empty store reports success (it upserts). -/
theorem update_user_missing_id_reports_success :
    (update_user_details Store.empty "u1" [("email", "e")]).1 = true ∧
      Store.empty.hgetall (.userHash "u1") = [] := by decide

/-- C2 amended: only `delete_product` and `delete_order` check existence
and fail on an absent id; `update_product_details` (with its price either
absent or parseable — the two non-raising cases), `update_user_details`,
`update_order_status` and `delete_user` report success even when the id
has no primary record. -/
theorem notfound_behavior_by_operation :
    (∀ (s : Store) (pid : String), s.hgetall (.productHash pid) = [] →
      delete_product s pid = (false, s)) ∧
    (∀ (s : Store) (oid : String), s.hgetall (.orderHash oid) = [] →
      delete_order s oid = (false, s)) ∧
    (∀ (s : Store) (pid : String) (data : FieldMap),
      (aget data "price" = none ∨
        ∃ pstr, aget data "price" = some pstr ∧ (parseFloat pstr).isSome = true) →
      (update_product_details s pid data).1 = true) ∧
    (∀ (s : Store) (uid : String) (data : FieldMap),
      (update_user_details s uid data).1 = true) ∧
    (∀ (s : Store) (oid st : String), (update_order_status s oid st).1 = true) ∧
    (∀ (s : Store) (uid : String), (delete_user s uid).1 = true) := by
  refine ⟨?_, ?_, ?_, ?_, ?_, ?_⟩
  · intro s pid h
    unfold delete_product
    rw [h]
    rfl
  · intro s oid h
    unfold delete_order
    rw [h]
    rfl
  · intro s pid data h
    rcases h with h | ⟨pstr, hp, hsome⟩
    · unfold update_product_details
      rw [h]
    · obtain ⟨pr, hpr⟩ := Option.isSome_iff_exists.mp hsome
      simp [update_product_details, hp, hpr]
  · intro s uid data
    rfl
  · intro s oid st
    rfl
  · intro s uid
    rfl

/-- C2 witness: the amended behavior at concrete inputs, exercising the
upserting update both with an absent and with a parseable price on ids
that have no primary record. -/
theorem notfound_behavior_witness :
    delete_product Store.empty "nope" = (false, Store.empty) ∧
    (update_product_details Store.empty "pa" [("name", "n")]).1 = true ∧
    (update_product_details Store.empty "pb"
      [("price", "4"), ("name", "n")]).1 = true ∧
    (update_order_status Store.empty "o9" "paid").1 = true :=
  ⟨notfound_behavior_by_operation.1 Store.empty "nope" rfl,
    notfound_behavior_by_operation.2.2.1 Store.empty "pa" [("name", "n")]
      (Or.inl (by decide)),
    notfound_behavior_by_operation.2.2.1 Store.empty "pb"
      [("price", "4"), ("name", "n")] (Or.inr ⟨"4", by decide, by decide⟩),
    notfound_behavior_by_operation.2.2.2.2.1 Store.empty "o9" "paid"⟩

/-! ## Claim C3 (ValidationError on non-numeric price or stock). -/

/-- C3 counterexample: the claim states product creation fails when a
required numeric field (price OR stock) does not parse; but `add_product`
only ever parses `price` (line 371) and never validates `stock`: a product
with the non-numeric stock "abc" is accepted with success. -/
theorem add_product_accepts_non_numeric_stock :
    (aget [("name", "n"), ("category", "c"), ("price", "10"), ("stock", "abc")]
        "stock" = some "abc") ∧
    parseInt "abc" = none ∧ parseFloat "abc" = none ∧
    (add_product Store.empty "p1"
      [("name", "n"), ("category", "c"), ("price", "10"), ("stock", "abc")]).1
      = true := by decide

/-- C3 amended: creation fails (returning the failure flag and the
unchanged store) whenever the `price` value does not parse as a number, and
conversely succeeds whenever `category` is present and `price` parses — the
`stock` field is never validated, so a non-numeric stock is accepted. -/
theorem add_product_price_validation :
    (∀ (s : Store) (pid : String) (data : FieldMap) (pstr : String),
      aget data "price" = some pstr → parseFloat pstr = none →
      add_product s pid data = (false, s)) ∧
    (∀ (s : Store) (pid : String) (data : FieldMap) (cat pstr : String),
      aget data "category" = some cat →
      aget data "price" = some pstr → (parseFloat pstr).isSome = true →
      (add_product s pid data).1 = true) := by
  constructor
  · intro s pid data pstr hp hparse
    cases hc : aget data "category" with
    | none => simp [add_product, hc]
    | some cat => simp [add_product, hc, hp, hparse]
  · intro s pid data cat pstr hc hp hparse
    obtain ⟨pr, hpr⟩ := Option.isSome_iff_exists.mp hparse
    simp [add_product, hc, hp, hpr]

/-- C3 witness: both halves of the amended claim at concrete inputs. -/
theorem add_product_price_validation_witness :
    add_product Store.empty "p1" [("category", "c"), ("price", "oops")]
        = (false, Store.empty) ∧
      (add_product Store.empty "p2"
        [("category", "c"), ("price", "2.5"), ("stock", "zzz")]).1 = true :=
  ⟨add_product_price_validation.1 Store.empty "p1"
      [("category", "c"), ("price", "oops")] "oops" (by decide) (by decide),
    add_product_price_validation.2 Store.empty "p2"
      [("category", "c"), ("price", "2.5"), ("stock", "zzz")] "c" "2.5"
      (by decide) (by decide) (by decide)⟩

/-! ## Claim C10 (failed price parse leaves the store untouched). -/

/-- C10: for a field map containing a `category` field whose `price` value
does not parse, `add_product` raises while queueing the pipeline and the
queued commands are discarded before execution, so it reports failure and
the store — the primary record, the `product:all_ids` membership, the
category set and the price index — is left exactly unchanged. -/
theorem add_product_unparseable_price_no_write (s : Store) (pid : String)
    (data : FieldMap) (cat pstr : String)
    (hc : aget data "category" = some cat)
    (hp : aget data "price" = some pstr)
    (hparse : parseFloat pstr = none) :
    add_product s pid data = (false, s) ∧
    (add_product s pid data).2.hgetall (.productHash pid) =
      s.hgetall (.productHash pid) ∧
    (add_product s pid data).2.smembers .productAllIds =
      s.smembers .productAllIds ∧
    (add_product s pid data).2.smembers (.categoryProducts cat) =
      s.smembers (.categoryProducts cat) ∧
    (add_product s pid data).2.zscore .productPrices pid =
      s.zscore .productPrices pid := by
  have h : add_product s pid data = (false, s) := by
    simp [add_product, hc, hp, hparse]
  exact ⟨h, by rw [h], by rw [h], by rw [h], by rw [h]⟩

/-- C10 witness: the discarded pipeline at a concrete store and input. -/
theorem add_product_unparseable_price_no_write_witness :
    (aget [("category", "c"), ("price", "1.2.3")] "category" = some "c") ∧
    (aget [("category", "c"), ("price", "1.2.3")] "price" = some "1.2.3") ∧
    parseFloat "1.2.3" = none ∧
    add_product Store.empty "px" [("category", "c"), ("price", "1.2.3")]
      = (false, Store.empty) :=
  ⟨by decide, by decide, by decide,
    (add_product_unparseable_price_no_write Store.empty "px"
      [("category", "c"), ("price", "1.2.3")] "c" "1.2.3" (by decide)
      (by decide) (by decide)).1⟩

/-! ## Claim C4 (top categories: ordering and tie-breaking). -/

/-- C4 counterexample: the claim states that whenever two categories have
equal product-set cardinality the lexicographically smaller name comes
first.  The code builds the category collection as a Python set whose
iteration order is unspecified (hash-dependent), and the stable
count-descending sort preserves that enumeration order among ties.  With
two singleton categories "a" and "b" and the admissible enumeration
["b", "a"] of the two existing category keys, the result lists "b" before
"a" although "a" is lexicographically smaller and the cardinalities are
equal. -/
theorem top_categories_tie_not_lexicographic :
    (let st : Store :=
      { hashes := [], sets := [(.categoryProducts "b", ["p1"]),
          (.categoryProducts "a", ["p2"])], zsets := [], lists := [], kv := [] }
     top_categories st ["b", "a"] = [("b", 1), ("a", 1)] ∧
       st.sets.map Prod.fst =
         [RKey.categoryProducts "b", RKey.categoryProducts "a"] ∧
       ["b", "a"].Nodup) ∧
    ("a" : String) < "b" := by
  constructor
  · exact ⟨by decide, by decide, by decide⟩
  · rw [String.lt_iff_toList_lt]
    decide

/-- C4 amended: for every store and every enumeration of the category set,
`top_categories` is the 5-element prefix of a permutation of the
(category, cardinality) pairs sorted by cardinality descending; ties keep
the (unspecified) enumeration order of the category set rather than
lexicographic name order. -/
theorem top_categories_sorted_desc (s : Store) (cats : List String) :
    ∃ full : List (String × Nat),
      (cats.map (fun c => (c, s.scard (.categoryProducts c)))).Perm full ∧
      full.Pairwise (fun a b => b.2 ≤ a.2) ∧
      top_categories s cats = full.take 5 := by
  refine ⟨sortBy (fun a b => decide (b.2 ≤ a.2))
      (cats.map (fun c => (c, s.scard (.categoryProducts c)))),
    (sortBy_perm _ _).symm, ?_, rfl⟩
  have hs := sortBy_sorted (fun a b : String × Nat => decide (b.2 ≤ a.2))
    (fun a b => by
      rcases Nat.le_total b.2 a.2 with h | h
      · exact Or.inl (decide_eq_true h)
      · exact Or.inr (decide_eq_true h))
    (fun a b c hab hbc =>
      decide_eq_true (Nat.le_trans (of_decide_eq_true hbc) (of_decide_eq_true hab)))
    (cats.map (fun c => (c, s.scard (.categoryProducts c))))
  exact hs.imp (fun h => of_decide_eq_true h)

/-! ## Claim C7 (create then delete clears the indexes). -/

/-- C7 counterexample: the claim quantifies over every product created by
`add_product` and then deleted; with the (admitted) category value `""` the
`if category:` truthiness guard of delete_product (line 417) skips the
category-set removal, so after a successful create and delete the id is
still in the `category::products` set. -/
theorem create_delete_empty_category_stale :
    (let r1 := add_product Store.empty "p" [("category", ""), ("price", "1")]
     let r2 := delete_product r1.2 "p"
     r1.1 = true ∧ r2.1 = true ∧
       "p" ∈ r2.2.smembers (.categoryProducts "")) := by decide

/-- C7 amended: for every product whose field map has duplicate-free keys
and a nonempty category, after a successful `add_product` followed by a
successful `delete_product` of the same id, the `product:all_ids` set, the
product's category set and the `product:prices` index no longer contain the
id. -/
theorem create_delete_clears_indexes (s : Store) (pid : String)
    (data : FieldMap) (cat : String) (hnd : (data.map Prod.fst).Nodup)
    (hc : aget data "category" = some cat) (hcne : cat ≠ "")
    (s1 : Store) (hadd : add_product s pid data = (true, s1))
    (s2 : Store) (hdel : delete_product s1 pid = (true, s2)) :
    pid ∉ s2.smembers .productAllIds ∧
    pid ∉ s2.smembers (.categoryProducts cat) ∧
    s2.zscore .productPrices pid = none := by
  obtain ⟨pstr, hp⟩ : ∃ pstr, aget data "price" = some pstr := by
    cases hp : aget data "price" with
    | none => simp [add_product, hc, hp] at hadd
    | some pstr => exact ⟨pstr, rfl⟩
  obtain ⟨pr, hpr⟩ : ∃ pr, parseFloat pstr = some pr := by
    cases hpr : parseFloat pstr with
    | none => simp [add_product, hc, hp, hpr] at hadd
    | some pr => exact ⟨pr, rfl⟩
  simp only [add_product, hc, hp, hpr, Prod.mk.injEq, true_and] at hadd
  have hcatfield : aget (s1.hgetall (.productHash pid)) "category" = some cat := by
    rw [← hadd]
    simp only [hgetall_zadd, hgetall_sadd, hgetall_hset_self]
    rw [aget_aset_ne _ _ _ _ (by decide : ("category" : String) ≠ "product_id")]
    exact foldl_hset_hget_of_aget data (.productHash pid) s "category" cat hnd hc
  have hpidfield : aget (s1.hgetall (.productHash pid)) "product_id" = some pid := by
    rw [← hadd]
    simp only [hgetall_zadd, hgetall_sadd, hgetall_hset_self]
    exact aget_aset_self _ _ _
  have hne : (s1.hgetall (.productHash pid)).isEmpty = false :=
    hgetall_not_empty_of_hget s1 (.productHash pid) "product_id" pid hpidfield
  simp only [delete_product, hne, Bool.false_eq_true, if_false, hcatfield,
    if_neg hcne, Prod.mk.injEq, true_and] at hdel
  subst hdel
  refine ⟨?_, ?_, ?_⟩
  · rw [smembers_del, if_neg (by simp),
      smembers_srem_ne _ _ _ _ (by simp), smembers_zrem, smembers_srem_self]
    intro hmem
    rw [List.mem_filter] at hmem
    simp at hmem
  · rw [smembers_del, if_neg (by simp), smembers_srem_self]
    intro hmem
    rw [List.mem_filter] at hmem
    simp at hmem
  · rw [zscore_del, if_neg (by simp), zscore_srem, zscore_zrem_self]

/-- C7 witness: the amended claim instantiated at a one-product store. -/
theorem create_delete_clears_indexes_witness :
    "p" ∉ ((delete_product
        (add_product Store.empty "p" [("category", "c"), ("price", "1")]).2
        "p").2).smembers .productAllIds ∧
    "p" ∉ ((delete_product
        (add_product Store.empty "p" [("category", "c"), ("price", "1")]).2
        "p").2).smembers (.categoryProducts "c") ∧
    ((delete_product
        (add_product Store.empty "p" [("category", "c"), ("price", "1")]).2
        "p").2).zscore .productPrices "p" = none :=
  create_delete_clears_indexes Store.empty "p"
    [("category", "c"), ("price", "1")] "c" (by decide) (by decide) (by decide)
    _ (Prod.ext_iff.mpr ⟨by decide, rfl⟩)
    _ (Prod.ext_iff.mpr ⟨by decide, rfl⟩)

/-! ## Claim C8 (category move on update). -/

/-- C8 counterexample: the claim quantifies over every product currently in
a category A; with A = `""` the `old_category and ...` truthiness guard of
update_product_details (line 391) skips the whole move, so a successful
update to category "B" neither removes the id from A's set nor adds it to
B's set — B's listing does not include the product, refuting the claim. -/
theorem update_empty_old_category_does_not_move :
    (let cex : Store :=
      { hashes := [(.productHash "p", [("category", "")])],
        sets := [(.categoryProducts "", ["p"])], zsets := [], lists := [],
        kv := [] }
     let r := update_product_details cex "p" [("category", "B")]
     cex.hget (.productHash "p") "category" = some "" ∧
     "p" ∈ cex.smembers (.categoryProducts "") ∧
     r.1 = true ∧
     "p" ∈ r.2.smembers (.categoryProducts "") ∧
     "p" ∉ r.2.smembers (.categoryProducts "B")) := by decide

/-- C8 amended: for every product whose stored category A is nonempty, a
successful `update_product_details` whose data carries a category B ≠ A
(and whose price, if present, parses) removes the id from A's category set
and adds it to B's — the old category value having been read before the
field merge — so the A listing excludes the product and the B listing
includes it. -/
theorem update_moves_category (s : Store) (pid : String) (data : FieldMap)
    (A B : String)
    (hold : s.hget (.productHash pid) "category" = some A)
    (hA : A ≠ "") (hAB : A ≠ B)
    (hnew : aget data "category" = some B)
    (hprice : aget data "price" = none ∨
      ∃ pstr, aget data "price" = some pstr ∧ (parseFloat pstr).isSome = true) :
    (update_product_details s pid data).1 = true ∧
    pid ∉ (update_product_details s pid data).2.smembers (.categoryProducts A) ∧
    pid ∈ (update_product_details s pid data).2.smembers (.categoryProducts B) := by
  have hshape : ∃ s2 : Store, update_product_details s pid data =
      (true, ((s2.srem (.categoryProducts A) pid).sadd (.categoryProducts B)
        pid).del (.cacheProductDetails pid)) := by
    rcases hprice with hp | ⟨pstr, hp, hsome⟩
    · refine ⟨data.foldl (fun st kv => st.hset (.productHash pid) kv.1 kv.2) s, ?_⟩
      simp only [update_product_details, hp, hnew, hold]
      rw [if_pos ⟨hA, hAB⟩]
    · obtain ⟨pr, hpr⟩ := Option.isSome_iff_exists.mp hsome
      refine ⟨(data.foldl (fun st kv => st.hset (.productHash pid) kv.1 kv.2)
          s).zadd .productPrices pid pr, ?_⟩
      simp only [update_product_details, hp, hpr, hnew, hold]
      rw [if_pos ⟨hA, hAB⟩]
  obtain ⟨s2, hs2⟩ := hshape
  rw [hs2]
  have hkne : (RKey.categoryProducts A) ≠ (RKey.categoryProducts B) := by
    simp [hAB]
  refine ⟨rfl, ?_, ?_⟩
  · show pid ∉ Store.smembers _ _
    rw [smembers_del, if_neg (by simp), smembers_sadd_ne _ _ _ _ hkne,
      smembers_srem_self]
    intro hmem
    rw [List.mem_filter] at hmem
    simp at hmem
  · show pid ∈ Store.smembers _ _
    rw [smembers_del, if_neg (by simp)]
    exact (mem_smembers_sadd_iff _ _ _ _).mpr (Or.inr rfl)

/-- C8 witness: the amended claim at a one-product store moving from
category "A" to category "B". -/
theorem update_moves_category_witness :
    (update_product_details
      { hashes := [(.productHash "p", [("category", "A")])],
        sets := [(.categoryProducts "A", ["p"])], zsets := [], lists := [],
        kv := [] } "p" [("category", "B")]).1 = true ∧
    "p" ∉ (update_product_details
      { hashes := [(.productHash "p", [("category", "A")])],
        sets := [(.categoryProducts "A", ["p"])], zsets := [], lists := [],
        kv := [] } "p" [("category", "B")]).2.smembers (.categoryProducts "A") ∧
    "p" ∈ (update_product_details
      { hashes := [(.productHash "p", [("category", "A")])],
        sets := [(.categoryProducts "A", ["p"])], zsets := [], lists := [],
        kv := [] } "p" [("category", "B")]).2.smembers (.categoryProducts "B") :=
  update_moves_category _ "p" [("category", "B")] "A" "B" (by decide)
    (by decide) (by decide) (by decide) (Or.inl (by decide))

/-! ## Claim C9 (order deletion cascade; sales ledger untouched). -/

/-- C9: a successful `delete_order` of an existing order owned by user `u`
removes the order's primary record, every `order_item:{iid}` record of its
item list, the `order:{id}:items` list itself, the order id from
`order:all_ids` and from the owner's `user:{u}:orders` list, while every
`product:{pid}:sales` sales-ledger list is left completely unchanged. -/
theorem delete_order_cascade (s : Store) (oid u : String)
    (hne : (s.hgetall (.orderHash oid)).isEmpty = false)
    (hu : aget (s.hgetall (.orderHash oid)) "user_id" = some u)
    (hune : u ≠ "") :
    (delete_order s oid).1 = true ∧
    (delete_order s oid).2.hgetall (.orderHash oid) = [] ∧
    (∀ iid ∈ s.lrangeAll (.orderItems oid),
      (delete_order s oid).2.hgetall (.orderItemHash iid) = []) ∧
    (delete_order s oid).2.lrangeAll (.orderItems oid) = [] ∧
    oid ∉ (delete_order s oid).2.smembers .orderAllIds ∧
    oid ∉ (delete_order s oid).2.lrangeAll (.userOrders u) ∧
    (∀ pid, (delete_order s oid).2.lrangeAll (.productSales pid) =
      s.lrangeAll (.productSales pid)) := by
  have hres : delete_order s oid =
      (true,
        if (s.lrangeAll (.orderItems oid)).isEmpty then
          (((s.del (.orderHash oid)).srem .orderAllIds oid).lremAll
            (.userOrders u) oid)
        else
          (((s.lrangeAll (.orderItems oid)).foldl
              (fun st iid => st.del (.orderItemHash iid))
              (((s.del (.orderHash oid)).srem .orderAllIds oid).lremAll
                (.userOrders u) oid)).del (.orderItems oid))) := by
    simp only [delete_order, hne, Bool.false_eq_true, if_false, hu,
      if_neg hune]
  rw [hres]
  by_cases hitems : (s.lrangeAll (.orderItems oid)).isEmpty
  · have hnil : s.lrangeAll (.orderItems oid) = [] := List.isEmpty_iff.mp hitems
    simp only [if_pos hitems]
    refine ⟨trivial, ?_, ?_, ?_, ?_, ?_, ?_⟩
    · rw [hgetall_lremAll, hgetall_srem, hgetall_del, if_pos rfl]
    · intro iid hiid
      rw [hnil] at hiid
      cases hiid
    · rw [lrangeAll_lremAll_ne _ _ _ _ (by simp), lrangeAll_srem,
        lrangeAll_del, if_neg (by simp)]
      exact hnil
    · rw [smembers_lremAll, smembers_srem_self]
      intro hmem
      rw [List.mem_filter] at hmem
      simp at hmem
    · rw [lrangeAll_lremAll_self]
      intro hmem
      rw [List.mem_filter] at hmem
      simp at hmem
    · intro pid
      rw [lrangeAll_lremAll_ne _ _ _ _ (by simp), lrangeAll_srem,
        lrangeAll_del, if_neg (by simp)]
  · simp only [if_neg hitems]
    have hnotinH : RKey.orderHash oid ∉
        (s.lrangeAll (.orderItems oid)).map RKey.orderItemHash := by
      simp
    have hnotinI : RKey.orderItems oid ∉
        (s.lrangeAll (.orderItems oid)).map RKey.orderItemHash := by
      simp
    have hnotinA : RKey.orderAllIds ∉
        (s.lrangeAll (.orderItems oid)).map RKey.orderItemHash := by
      simp
    have hnotinU : RKey.userOrders u ∉
        (s.lrangeAll (.orderItems oid)).map RKey.orderItemHash := by
      simp
    refine ⟨trivial, ?_, ?_, ?_, ?_, ?_, ?_⟩
    · rw [hgetall_del, if_neg (by simp), foldl_del_hgetall, if_neg hnotinH,
        hgetall_lremAll, hgetall_srem, hgetall_del, if_pos rfl]
    · intro iid hiid
      rw [hgetall_del, if_neg (by simp), foldl_del_hgetall,
        if_pos (List.mem_map.mpr ⟨iid, hiid, rfl⟩)]
    · rw [lrangeAll_del, if_pos rfl]
    · rw [smembers_del, if_neg (by simp), foldl_del_smembers _ _ _ hnotinA,
        smembers_lremAll, smembers_srem_self]
      intro hmem
      rw [List.mem_filter] at hmem
      simp at hmem
    · rw [lrangeAll_del, if_neg (by simp), foldl_del_lrangeAll _ _ _ hnotinU,
        lrangeAll_lremAll_self]
      intro hmem
      rw [List.mem_filter] at hmem
      simp at hmem
    · intro pid
      rw [lrangeAll_del, if_neg (by simp), foldl_del_lrangeAll _ _ _ (by simp),
        lrangeAll_lremAll_ne _ _ _ _ (by simp), lrangeAll_srem,
        lrangeAll_del, if_neg (by simp)]

/-- C9 witness: the cascade at a concrete one-order store with one item,
an owning user and a sales-ledger entry. -/
theorem delete_order_cascade_witness :
    (let st : Store :=
      { hashes := [(.orderHash "o1", [("user_id", "u1"), ("total_amount", "5")]),
          (.orderItemHash "o1:0", [("Quantity", "1")])],
        sets := [(.orderAllIds, ["o1"])],
        zsets := [],
        lists := [(.orderItems "o1", ["o1:0"]), (.userOrders "u1", ["o1"]),
          (.productSales "p1", ["o1:0"])],
        kv := [] }
     (delete_order st "o1").1 = true ∧
     (delete_order st "o1").2.hgetall (.orderHash "o1") = [] ∧
     (∀ iid ∈ st.lrangeAll (.orderItems "o1"),
       (delete_order st "o1").2.hgetall (.orderItemHash iid) = []) ∧
     (delete_order st "o1").2.lrangeAll (.orderItems "o1") = [] ∧
     "o1" ∉ (delete_order st "o1").2.smembers .orderAllIds ∧
     "o1" ∉ (delete_order st "o1").2.lrangeAll (.userOrders "u1") ∧
     (∀ pid, (delete_order st "o1").2.lrangeAll (.productSales pid) =
       st.lrangeAll (.productSales pid))) :=
  delete_order_cascade _ "o1" "u1" (by decide) (by decide) (by decide)

/-! ## Claim C5 (pagination of the filtered listings). -/

theorem isSome_eq_some_getD {α : Type} (o : Option α) (d : α)
    (h : o.isSome = true) : o = some (o.getD d) := by
  cases o with
  | none => cases h
  | some v => rfl

theorem mapM_slice_total {α β : Type} (l : List α) (fmt : α → Option β)
    (dflt : β) (h : ∀ d ∈ l, (fmt d).isSome = true) (a b : Nat) :
    ((l.drop a).take b).mapM fmt =
      some (((l.drop a).take b).map (fun d => (fmt d).getD dflt)) :=
  mapM_eq_map_of_total fmt (fun d => (fmt d).getD dflt) _
    (fun x hx =>
      isSome_eq_some_getD _ _ (h x (List.drop_subset _ _ (List.take_subset _ _ hx))))

/-- C5: each listing returns `total_matches = |filtered|` together with the
slice `filtered[(page-1)*page_size : page*page_size]` (numerically coerced
for products and orders); a page beyond the last valid page returns the
empty slice, not an error; and concatenating the pages `1..ceil(N/P)` in
order reproduces the full filtered sequence with no duplicates or
omissions.  The product/order parse hypotheses reflect that the source's
per-entry `float`/`int` coercion raises on an unparseable field. -/
theorem pagination_spec (s : Store) (page psz : Nat) (q : String)
    (hpage : 1 ≤ page) (hpsz : 1 ≤ psz)
    (hparseP : ∀ d ∈ productsFiltered s q, (fmtProduct d).isSome = true)
    (hparseO : ∀ d ∈ ordersFiltered s q, (fmtOrder d).isSome = true) :
    (get_all_users s page psz q =
      (((usersFiltered s q).drop ((page - 1) * psz)).take psz,
        (usersFiltered s q).length)) ∧
    ((usersFiltered s q).length ≤ (page - 1) * psz →
      (get_all_users s page psz q).1 = []) ∧
    ((List.range (((usersFiltered s q).length + psz - 1) / psz)).flatMap
      (fun i => (get_all_users s (i + 1) psz q).1) = usersFiltered s q) ∧
    (get_all_products s page psz q =
      some ((((productsFiltered s q).drop ((page - 1) * psz)).take psz).map
          (fun d => (fmtProduct d).getD []),
        (productsFiltered s q).length)) ∧
    ((productsFiltered s q).length ≤ (page - 1) * psz →
      get_all_products s page psz q =
        some ([], (productsFiltered s q).length)) ∧
    ((List.range (((productsFiltered s q).length + psz - 1) / psz)).flatMap
      (fun i => ((get_all_products s (i + 1) psz q).getD ([], 0)).1) =
      (productsFiltered s q).map (fun d => (fmtProduct d).getD [])) ∧
    (get_all_orders s page psz q =
      some ((((ordersFiltered s q).drop ((page - 1) * psz)).take psz).map
          (fun d => (fmtOrder d).getD []),
        (ordersFiltered s q).length)) ∧
    ((ordersFiltered s q).length ≤ (page - 1) * psz →
      get_all_orders s page psz q =
        some ([], (ordersFiltered s q).length)) ∧
    ((List.range (((ordersFiltered s q).length + psz - 1) / psz)).flatMap
      (fun i => ((get_all_orders s (i + 1) psz q).getD ([], 0)).1) =
      (ordersFiltered s q).map (fun d => (fmtOrder d).getD [])) := by
  have hpageU : ∀ p : Nat, get_all_users s p psz q =
      (((usersFiltered s q).drop ((p - 1) * psz)).take psz,
        (usersFiltered s q).length) := by
    intro p
    rfl
  have hpageP : ∀ p : Nat, get_all_products s p psz q =
      some ((((productsFiltered s q).drop ((p - 1) * psz)).take psz).map
          (fun d => (fmtProduct d).getD []),
        (productsFiltered s q).length) := by
    intro p
    simp only [get_all_products,
      mapM_slice_total (productsFiltered s q) fmtProduct [] hparseP
        ((p - 1) * psz) psz]
  have hpageO : ∀ p : Nat, get_all_orders s p psz q =
      some ((((ordersFiltered s q).drop ((p - 1) * psz)).take psz).map
          (fun d => (fmtOrder d).getD []),
        (ordersFiltered s q).length) := by
    intro p
    simp only [get_all_orders,
      mapM_slice_total (ordersFiltered s q) fmtOrder [] hparseO
        ((p - 1) * psz) psz]
  refine ⟨hpageU page, ?_, ?_, hpageP page, ?_, ?_, hpageO page, ?_, ?_⟩
  · intro hbeyond
    rw [hpageU page]
    show (((usersFiltered s q).drop ((page - 1) * psz)).take psz) = []
    rw [List.drop_eq_nil_of_le hbeyond, List.take_nil]
  · simp only [hpageU, Nat.add_sub_cancel]
    exact flatChunks_eq_self (usersFiltered s q) psz hpsz
  · intro hbeyond
    rw [hpageP page, List.drop_eq_nil_of_le hbeyond, List.take_nil,
      List.map_nil]
  · simp only [hpageP, Option.getD_some, Nat.add_sub_cancel,
      List.map_take, List.map_drop]
    rw [show (productsFiltered s q).length =
        ((productsFiltered s q).map (fun d => (fmtProduct d).getD [])).length
      from (List.length_map _ _).symm]
    exact flatChunks_eq_self _ psz hpsz
  · intro hbeyond
    rw [hpageO page, List.drop_eq_nil_of_le hbeyond, List.take_nil,
      List.map_nil]
  · simp only [hpageO, Option.getD_some, Nat.add_sub_cancel,
      List.map_take, List.map_drop]
    rw [show (ordersFiltered s q).length =
        ((ordersFiltered s q).map (fun d => (fmtOrder d).getD [])).length
      from (List.length_map _ _).symm]
    exact flatChunks_eq_self _ psz hpsz

/-- C5 witness: the pagination contract at a concrete three-product,
two-user, one-order store with page 1 of size 2 and an empty query. -/
theorem pagination_spec_witness :
    (let st : Store :=
      { hashes := [(.productHash "p1", [("name", "a"), ("price", "1"), ("stock", "2")]),
          (.productHash "p2", [("name", "b"), ("price", "2"), ("stock", "3")]),
          (.productHash "p3", [("name", "c"), ("price", "3"), ("stock", "4")]),
          (.userHash "u1", [("username", "x")]),
          (.userHash "u2", [("username", "y")]),
          (.orderHash "o1", [("order_id", "o1"), ("total_amount", "9")])],
        sets := [(.productAllIds, ["p1", "p2", "p3"]),
          (.userAllIds, ["u1", "u2"]), (.orderAllIds, ["o1"])],
        zsets := [], lists := [], kv := [] }
     (get_all_users st 1 2 "" =
        (((usersFiltered st "").drop 0).take 2, (usersFiltered st "").length)) ∧
     (get_all_products st 1 2 "" =
        some ((((productsFiltered st "").drop 0).take 2).map
            (fun d => (fmtProduct d).getD []),
          (productsFiltered st "").length)) ∧
     ((List.range (((productsFiltered st "").length + 2 - 1) / 2)).flatMap
        (fun i => ((get_all_products st (i + 1) 2 "").getD ([], 0)).1) =
        (productsFiltered st "").map (fun d => (fmtProduct d).getD []))) := by
  have h := pagination_spec
    { hashes := [(.productHash "p1", [("name", "a"), ("price", "1"), ("stock", "2")]),
        (.productHash "p2", [("name", "b"), ("price", "2"), ("stock", "3")]),
        (.productHash "p3", [("name", "c"), ("price", "3"), ("stock", "4")]),
        (.userHash "u1", [("username", "x")]),
        (.userHash "u2", [("username", "y")]),
        (.orderHash "o1", [("order_id", "o1"), ("total_amount", "9")])],
      sets := [(.productAllIds, ["p1", "p2", "p3"]),
        (.userAllIds, ["u1", "u2"]), (.orderAllIds, ["o1"])],
      zsets := [], lists := [], kv := [] }
    1 2 "" (by decide) (by decide) (by decide) (by decide)
  exact ⟨h.1, h.2.2.2.1, h.2.2.2.2.2.1⟩

/-! ## Claim C6 (monthly revenue trend). -/

/-- C6: the trend groups exactly the parseable orders by the `YYYY-MM`
prefix of their `order_date` (that is, the pairs of `ordersParsed`, whose
month key `parseIsoMonth` returns is the 7-character prefix of the date
string), sums `total_amount` per month, and is sorted strictly ascending by
month key; a pair `(m, q)` occurs in the result exactly when some parseable
order has month `m` and `q` is the sum of the parsed amounts of the orders
with that month — orders whose date or amount does not parse contribute to
no month and produce no error entry, since `parseOrderMonthAmount` filters
them out of `ordersParsed`. -/
theorem monthly_sales_trend_spec (s : Store) :
    (monthly_sales_trend s).Pairwise (fun a b => a.1 < b.1) ∧
    ∀ m q, ((m, q) ∈ monthly_sales_trend s ↔
      m ∈ (ordersParsed s).map Prod.fst ∧
      q = (((ordersParsed s).filter (fun p => p.1 == m)).map Prod.snd).sum) := by
  have hnd := keys_groupFold_nodup (ordersParsed s)
  have hperm := sortBy_perm (fun a b : String × ℚ => decide (a.1 ≤ b.1))
    (groupFold (ordersParsed s))
  constructor
  · have hs := sortBy_sorted (fun a b : String × ℚ => decide (a.1 ≤ b.1))
      (fun a b => by
        rcases le_total a.1 b.1 with h | h
        · exact Or.inl (decide_eq_true h)
        · exact Or.inr (decide_eq_true h))
      (fun a b c hab hbc =>
        decide_eq_true (le_trans (of_decide_eq_true hab) (of_decide_eq_true hbc)))
      (groupFold (ordersParsed s))
    have hle : (monthly_sales_trend s).Pairwise (fun a b => a.1 ≤ b.1) :=
      hs.imp (fun h => of_decide_eq_true h)
    have hndS : ((monthly_sales_trend s).map Prod.fst).Nodup :=
      ((hperm.map Prod.fst).nodup_iff).mpr hnd
    have hne : (monthly_sales_trend s).Pairwise (fun a b => a.1 ≠ b.1) :=
      List.pairwise_map.mp hndS
    exact (hle.and hne).imp (fun h => lt_of_le_of_ne h.1 h.2)
  · intro m q
    have hmem : (m, q) ∈ monthly_sales_trend s ↔
        (m, q) ∈ groupFold (ordersParsed s) := hperm.mem_iff
    rw [hmem, ← aget_eq_some_iff_mem _ hnd, aget_groupFold]
    by_cases hm : m ∈ (ordersParsed s).map Prod.fst
    · simp only [hm, if_true, true_and, Option.some_inj]
      exact eq_comm
    · simp [hm]
